import Mathlib

/-!
Verification of the EasyTesting browser automation engine
(src/browser/cdp-page.ts and src/browser/index.ts).

The engine synthesizes self-contained page scripts that query or mutate the
DOM and return tagged results across the protocol boundary.  We embed the
semantics of those scripts and of the action-executor methods as pure Lean
functions over an explicit model of the page state (the list of elements a
selector currently matches, each element's geometry and control state),
and prove the
specified properties about them.

JS strings are modelled as `List Char`; JS numbers used as indices as `Int`
(so that negative indices behave as in the source); geometry as `ℚ`.
-/

namespace EasyTesting

/-! ## Character classes used by the selector resolver -/

/-- Whitespace as recognized by JS `String.prototype.trim` and the regex
class `\s` (WhiteSpace plus LineTerminator code points). -/
def jsWhitespace (c : Char) : Bool :=
  let n := c.toNat
  n == 32 || n == 9 || n == 10 || n == 13 || n == 11 || n == 12 ||
  n == 0xa0 || n == 0x1680 || (0x2000 ≤ n && n ≤ 0x200a) ||
  n == 0x2028 || n == 0x2029 || n == 0x202f || n == 0x205f ||
  n == 0x3000 || n == 0xfeff

/-- Characters matched by the regex class `[\w-]` (ASCII letters, digits,
underscore, hyphen) used by the attribute-shorthand patterns in
`resolveSelector`. -/
def isWordChar (c : Char) : Bool :=
  let n := c.toNat
  (65 ≤ n && n ≤ 90) || (97 ≤ n && n ≤ 122) || (48 ≤ n && n ≤ 57) ||
  n == 95 || n == 45

/-- Quote characters accepted by the shorthand patterns (`"` or the single
quote). -/
def isQuote (c : Char) : Bool :=
  c.toNat == 34 || c.toNat == 39

/-- Characters escaped by `escapeSelectorClass`
(the set `\!"#$%&'()*+,./:;<=>?@[]^`-backtick-braces-pipe-tilde). -/
def isEscapedPunct (c : Char) : Bool :=
  let n := c.toNat
  (33 ≤ n && n ≤ 47 && n != 45) || (58 ≤ n && n ≤ 64) ||
  (91 ≤ n && n ≤ 94) || n == 96 || (123 ≤ n && n ≤ 126)

/-- ASCII lower-casing, as JS `toLowerCase` acts on the ASCII identifiers
compared here. -/
def jsToLower (c : Char) : Char :=
  if 65 ≤ c.toNat ∧ c.toNat ≤ 90 then Char.ofNat (c.toNat + 32) else c

/-- Lower-case a whole string. -/
def lowerChars (s : List Char) : List Char := s.map jsToLower

/-- JS `String.prototype.trim`. -/
def jsTrim (s : List Char) : List Char :=
  ((s.dropWhile jsWhitespace).reverse.dropWhile jsWhitespace).reverse

/-- Prefix test on character lists (JS `String.prototype.startsWith`). -/
def startsWithChars : List Char → List Char → Bool
  | [], _ => true
  | _ :: _, [] => false
  | p :: ps, c :: cs => p == c && startsWithChars ps cs

/-! ## Selector classification and resolution
(`isXPath`, `resolveSelector`, `escapeSelectorClass` in cdp-page.ts) -/

/-- Embeds `isXPath`: a selector is path-based when, trimmed, it starts with
a slash, an opening parenthesis, or a dot-slash. -/
def isXPath (s : List Char) : Bool :=
  startsWithChars ['/'] (jsTrim s) || startsWithChars ['('] (jsTrim s) ||
  startsWithChars ['.', '/'] (jsTrim s)

/-- Embeds the tail of the shorthand regex: the remainder after the
opening quote must consist of a quote-free value followed by one closing
quote at the very end of the string. -/
def parseAfterQuote (r5 : List Char) : Option (List Char) :=
  match r5.reverse with
  | q2 :: revV =>
    if isQuote q2 && revV.all (fun c => !isQuote c) then some revV.reverse
    else none
  | [] => none

/-- Embeds the part of the shorthand regex after the equals sign:
optional whitespace, an opening quote, then (via `parseAfterQuote`) a
quote-free value closed by a quote at end of string. -/
def parseAfterEq (r3 : List Char) : Option (List Char) :=
  match r3.dropWhile jsWhitespace with
  | q1 :: r5 => if isQuote q1 then parseAfterQuote r5 else none
  | [] => none

/-- Embeds the attribute-shorthand regex matching of `resolveSelector`:
the pattern anchored-wordchars, optional whitespace, equals sign, optional
whitespace, a quote, a quote-free value, a closing quote at end of string.
Returns the attribute name and the value on a match.  (Backtracking in
the source regex never produces a match this greedy parse misses: the
word run is maximal because the character after it must be whitespace or
the equals sign, and the value run is maximal because its characters
exclude quotes.) -/
def parseAttrShorthand (s : List Char) : Option (List Char × List Char) :=
  if (s.takeWhile isWordChar).isEmpty then none
  else
    match (s.dropWhile isWordChar).dropWhile jsWhitespace with
    | c :: r3 =>
      if c = '=' then
        (parseAfterEq r3).map (fun v => (s.takeWhile isWordChar, v))
      else none
    | [] => none

/-- Embeds `escapeSelectorClass`: prefix every punctuation character in the
escape set with a backslash. -/
def escapeSelectorClass : List Char → List Char
  | [] => []
  | c :: rest =>
    if isEscapedPunct c then '\\' :: c :: escapeSelectorClass rest
    else c :: escapeSelectorClass rest

/-- Helper: dropping a prefix never lengthens a list. -/
theorem dropWhile_len_le (p : Char → Bool) :
    ∀ l : List Char, (l.dropWhile p).length ≤ l.length := by
  intro l
  induction l with
  | nil => simp [List.dropWhile]
  | cons a l ih =>
    rw [List.dropWhile_cons]
    split
    · exact Nat.le_trans ih (Nat.le_succ _)
    · exact Nat.le_refl _

/-- Accumulator pass for whitespace splitting: `cur` holds the current
token's characters in reverse. -/
def splitWsAux (cur : List Char) : List Char → List (List Char)
  | [] => if cur.isEmpty then [] else [cur.reverse]
  | c :: rest =>
    if jsWhitespace c then
      if cur.isEmpty then splitWsAux [] rest
      else cur.reverse :: splitWsAux [] rest
    else splitWsAux (c :: cur) rest

/-- Splits on whitespace runs and drops empty tokens, as
`trim().split(regex-whitespace-run).filter(Boolean)` does in the class
branch of `resolveSelector`. -/
def splitWsTokens (s : List Char) : List (List Char) := splitWsAux [] s

/-- Embeds `resolveSelector`: path-based selectors are returned trimmed;
shorthand forms rewrite to structural queries (`name`/`id` keys are emitted
lower-case as in the source, the class form becomes one escaped dot-class
per whitespace-separated token, any other attribute keeps its spelling);
everything else is returned trimmed. -/
def resolveChars (locator : List Char) : List Char :=
  if isXPath (jsTrim locator) then jsTrim locator
  else
    match parseAttrShorthand (jsTrim locator) with
    | some (a, v) =>
      if lowerChars a = "name".toList then
        '[' :: "name".toList ++ '=' :: '"' :: v ++ ['"', ']']
      else if lowerChars a = "id".toList then
        '[' :: "id".toList ++ '=' :: '"' :: v ++ ['"', ']']
      else if lowerChars a = "class".toList then
        ((splitWsTokens (jsTrim v)).map
          (fun c => '.' :: escapeSelectorClass c)).foldr (· ++ ·) []
      else
        '[' :: a ++ '=' :: '"' :: v ++ ['"', ']']
    | none => jsTrim locator

/-! ## Element lookup: the shared find logic of every built expression
(`buildStrictFindExpression`, `buildFindWithIndexExpression`, their XPath
variants, and the identical inner find blocks of the state / select /
check scripts). -/

/-- Locator cardinality beyond strict mode: first, last, or a 0-based index
(a JS number, possibly negative). -/
inductive LocIndex
  | first
  | last
  | nth (n : Int)
deriving DecidableEq, Repr

/-- Tagged outcome of a built find expression: the `QueryOutcome` shape.
`notFound` always carries count 0, `strict` the match count, `outOfRange`
the match count and the requested index. -/
inductive FindOutcome (α : Type)
  | notFound (count : Nat)
  | strict (count : Nat)
  | outOfRange (count : Nat) (idx : Int)
  | found (a : α)
deriving DecidableEq, Repr

/-- Index actually evaluated by the built expression:
0 for first, length minus one for last, the given number otherwise. -/
def effectiveIdx (len : Nat) : LocIndex → Int
  | .first => 0
  | .last => (len : Int) - 1
  | .nth n => n

/-- Embeds the find logic shared by all built expressions, applied to the
list of elements the (already canonical) selector matches in the document.
Strict mode (`none`): zero matched elements is `notFound 0`, two or more is
`strict count`, exactly one returns the element.  Indexed mode: zero
matched elements is `notFound 0`; otherwise the effective index must lie in
`[0, count)` or the result is `outOfRange count idx`. -/
def findElement {α : Type} (ms : List α) (idx : Option LocIndex) :
    FindOutcome α :=
  match idx with
  | none =>
    match ms with
    | [] => .notFound 0
    | [a] => .found a
    | _ => .strict ms.length
  | some li =>
    match ms with
    | [] => .notFound 0
    | _ =>
      let i := effectiveIdx ms.length li
      if h : 0 ≤ i ∧ i.toNat < ms.length then
        .found (ms.get ⟨i.toNat, h.2⟩)
      else .outOfRange ms.length i

/-- Viewport rectangle returned by `getBoundingClientRect` after the
scroll-into-view performed by the find scripts. -/
structure Rect where
  x : ℚ
  y : ℚ
  w : ℚ
  h : ℚ
deriving DecidableEq, Repr

/-- Sample rectangle used by concrete witnesses. -/
def rect0 : Rect := ⟨1, 2, 10, 20⟩

/-- Second sample rectangle used by concrete witnesses. -/
def rect1 : Rect := ⟨5, 6, 30, 40⟩

/-- C1: Under strict cardinality the find expression returns the matched
element's rect when exactly one element ms, a not-found outcome with
count 0 when zero match, and the strict/ambiguous outcome carrying the
match count when two or more match; every case is a tagged `FindOutcome`
value, never an untagged failure (the function is total into the tagged
type). -/
theorem strict_find_trichotomy (ms : List Rect) :
    (ms.length = 0 → findElement ms none = .notFound 0) ∧
    (ms.length = 1 →
      ∃ r, ms = [r] ∧ findElement ms none = .found r) ∧
    (2 ≤ ms.length →
      findElement ms none = .strict ms.length) := by
  refine ⟨?_, ?_, ?_⟩
  · intro h
    rw [List.length_eq_zero] at h
    subst h; rfl
  · intro h
    match ms, h with
    | [r], _ => exact ⟨r, rfl, rfl⟩
  · intro h
    match ms, h with
    | a :: b :: l, _ => rfl

/-- Witness for C1 at concrete inputs: zero, one, and two ms. -/
theorem strict_find_trichotomy_witness :
    findElement ([] : List Rect) none = .notFound 0 ∧
    (∃ r, [rect0] = [r] ∧ findElement [rect0] none = .found r) ∧
    findElement [rect0, rect1] none = .strict 2 :=
  ⟨(strict_find_trichotomy []).1 rfl,
   (strict_find_trichotomy [rect0]).2.1 rfl,
   (strict_find_trichotomy [rect0, rect1]).2.2 (by decide)⟩

/-- C2 counterexample: with zero ms and requested index 0, the find
expression returns the not-found outcome (count 0), not the out-of-range
outcome the claim requires for every count including zero. -/
theorem nth_empty_counterexample :
    findElement ([] : List Rect) (some (.nth 0)) = .notFound 0 ∧
    findElement ([] : List Rect) (some (.nth 0)) ≠ .outOfRange 0 0 := by
  constructor
  · rfl
  · intro h; cases h

/-- C2 (amended): with cardinality `Nth(n)` the result is `found` exactly
when `0 ≤ n < count` (so never when the count is zero); with zero ms
the result is `notFound 0`; with a nonempty match list and `n` outside
`[0, count)` the result is `outOfRange count n`; and in the found case the
payload is the element at position `n`. -/
theorem nth_resolution (ms : List Rect) (n : Int) :
    ((∃ r, findElement ms (some (.nth n)) = .found r) ↔
      (0 ≤ n ∧ n < (ms.length : Int))) ∧
    (ms = [] → findElement ms (some (.nth n)) = .notFound 0) ∧
    (ms ≠ [] → ¬(0 ≤ n ∧ n < (ms.length : Int)) →
      findElement ms (some (.nth n)) = .outOfRange ms.length n) ∧
    (0 ≤ n → n < (ms.length : Int) →
      findElement ms (some (.nth n)) =
        .found (ms.getD n.toNat rect0)) := by
  have key : ∀ (h0 : 0 ≤ n) (h1 : n < (ms.length : Int)),
      findElement ms (some (.nth n)) =
        .found (ms.getD n.toNat rect0) := by
    intro h0 h1
    match ms with
    | [] => simp at h1; omega
    | a :: l =>
      show (if h : _ then _ else _) = _
      rw [dif_pos]
      · congr 1
        rw [List.getD_eq_getElem]
        · simp [effectiveIdx, List.get_eq_getElem]
        · simp only [effectiveIdx, List.length_cons] at h1 ⊢
          omega
      · refine ⟨h0, ?_⟩
        simp only [effectiveIdx, List.length_cons] at h1 ⊢
        omega
  refine ⟨?_, ?_, ?_, key⟩
  · constructor
    · rintro ⟨r, hr⟩
      match ms with
      | [] => exact absurd hr (by intro h; cases h)
      | a :: l =>
        revert hr
        show (if h : _ then _ else _) = _ → _
        split
        · rename_i h
          intro _
          simp only [effectiveIdx, List.length_cons] at h ⊢
          omega
        · intro h; cases h
    · rintro ⟨h0, h1⟩
      exact ⟨_, key h0 h1⟩
  · intro h; subst h; rfl
  · intro hne hrange
    match ms with
    | [] => exact absurd rfl hne
    | a :: l =>
      show (if h : _ then _ else _) = _
      rw [dif_neg]
      · rfl
      · intro ⟨h0, h1⟩
        apply hrange
        refine ⟨by simpa [effectiveIdx] using h0, ?_⟩
        simp only [effectiveIdx, List.length_cons] at h1 ⊢
        omega

/-- Witness for C2 (amended) at concrete inputs: a two-element match list
with in-range index 1, out-of-range index 5, negative index, and the empty
match list. -/
theorem nth_resolution_witness :
    findElement ([] : List Rect) (some (.nth 3)) = .notFound 0 ∧
    findElement [rect0, rect1] (some (.nth 1)) = .found rect1 ∧
    findElement [rect0, rect1] (some (.nth 5)) = .outOfRange 2 5 ∧
    findElement [rect0, rect1] (some (.nth (-1))) = .outOfRange 2 (-1) := by
  refine ⟨(nth_resolution [] 3).2.1 rfl, ?_, ?_, ?_⟩
  · have := (nth_resolution [rect0, rect1] 1).2.2.2 (by decide) (by decide)
    simpa using this
  · exact (nth_resolution [rect0, rect1] 5).2.2.1 (by decide) (by decide)
  · exact (nth_resolution [rect0, rect1] (-1)).2.2.1 (by decide) (by decide)

/-! ## Page element model

An element as observed by the built scripts: tag, control state, geometry
and computed style.  `opts` models the `options` collection of a
`<select>` element. -/

/-- Option element state inside a `<select>`: visible text, value
attribute, and current selected flag. -/
structure OptState where
  label : List Char
  value : List Char
  selected : Bool
deriving DecidableEq, Repr

/-- Computed style fields read by the visibility script. -/
structure Style where
  display : List Char
  visibility : List Char
  opacity : ℚ
deriving DecidableEq, Repr

/-- Element state readable by the built scripts. -/
structure Elem where
  tagName : List Char
  typeAttr : List Char
  checked : Bool
  disabled : Bool
  readOnly : Bool
  contentEditable : Bool
  optionSelected : Bool
  selectedIndex : Int
  rect : Rect
  style : Style
  opts : List OptState
deriving DecidableEq, Repr

/-! ## Input dispatch commands (CDP `Input.dispatchMouseEvent` /
`Input.dispatchKeyEvent` calls issued by the executor) -/

/-- Mouse button attached to a dispatched pointer event. -/
inductive MouseButton
  | left
  | right
deriving DecidableEq, Repr

/-- One `Input.dispatchMouseEvent` command. -/
structure MouseEv where
  mtype : List Char
  x : ℚ
  y : ℚ
  button : Option MouseButton
  clickCount : Option Nat
deriving DecidableEq, Repr

/-- One `Input.dispatchKeyEvent` command. -/
structure KeyEv where
  ktype : List Char
  text : Option (List Char)
  key : Option (List Char)
deriving DecidableEq, Repr

/-- An input-dispatch protocol command. -/
inductive InputCmd
  | mouse (e : MouseEv)
  | key (e : KeyEv)
deriving DecidableEq, Repr

/-- Errors thrown at the action-executor boundary
(`throwLocatorError` plus the operation-specific type mismatches). -/
inductive AutoError
  | locNotFound (count : Nat)
  | locStrict (count : Nat)
  | locOutOfRange (count : Nat) (idx : Int)
  | notSelect
  | notCheckable
deriving DecidableEq, Repr

/-- Locator error corresponding to a failed find outcome, `none` on
success (mirrors `throwLocatorError`). -/
def locErrOf {α : Type} : FindOutcome α → Option AutoError
  | .notFound c => some (.locNotFound c)
  | .strict c => some (.locStrict c)
  | .outOfRange c i => some (.locOutOfRange c i)
  | .found _ => none

/-- Normalization performed by every public verb and predicate before
expression building: a numeric index of 0 becomes `first`
(the `index === 0` test in the source). -/
def normalizeIndex : Option LocIndex → Option LocIndex
  | some (.nth n) => if n = 0 then some .first else some (.nth n)
  | i => i

/-- Center of a rectangle, as `getCenter` computes it. -/
def centerOf (r : Rect) : ℚ × ℚ := (r.x + r.w / 2, r.y + r.h / 2)

/-- Embeds `getElementCenter`: evaluate the find expression (strict or
indexed after 0-to-first normalization); a tagged failure becomes a thrown
locator error; on success wait the settle delay, re-measure
(`remeasure` is the second measurement when it returned a rect, `none`
when the executor falls back to the first rect) and return the center. -/
def getElementCenter (ms : List Rect) (idx : Option LocIndex)
    (remeasure : Option Rect) : Except AutoError (ℚ × ℚ) :=
  match findElement ms (normalizeIndex idx) with
  | .notFound c => .error (.locNotFound c)
  | .strict c => .error (.locStrict c)
  | .outOfRange c i => .error (.locOutOfRange c i)
  | .found r => .ok (centerOf (remeasure.getD r))

/-- Pointer-event pair dispatched for a single click with the given button
and click count. -/
def clickPair (b : MouseButton) (count : Nat) (p : ℚ × ℚ) : List InputCmd :=
  [.mouse ⟨"mousePressed".toList, p.1, p.2, some b, some count⟩,
   .mouse ⟨"mouseReleased".toList, p.1, p.2, some b, some count⟩]

/-- Embeds `click`: resolve the center, then dispatch a left press/release
pair with click count 1. -/
def clickExec (ms : List Rect) (idx : Option LocIndex)
    (remeasure : Option Rect) : Except AutoError (List InputCmd) :=
  match getElementCenter ms idx remeasure with
  | .error e => .error e
  | .ok p => .ok (clickPair .left 1 p)

/-- Embeds `doubleClick` (click count 2). -/
def doubleClickExec (ms : List Rect) (idx : Option LocIndex)
    (remeasure : Option Rect) : Except AutoError (List InputCmd) :=
  match getElementCenter ms idx remeasure with
  | .error e => .error e
  | .ok p => .ok (clickPair .left 2 p)

/-- Embeds `rightClick` (right button). -/
def rightClickExec (ms : List Rect) (idx : Option LocIndex)
    (remeasure : Option Rect) : Except AutoError (List InputCmd) :=
  match getElementCenter ms idx remeasure with
  | .error e => .error e
  | .ok p => .ok (clickPair .right 1 p)

/-- Embeds `hover`: dispatch one mouse-move to the center. -/
def hoverExec (ms : List Rect) (idx : Option LocIndex)
    (remeasure : Option Rect) : Except AutoError (List InputCmd) :=
  match getElementCenter ms idx remeasure with
  | .error e => .error e
  | .ok p => .ok [.mouse ⟨"mouseMoved".toList, p.1, p.2, none, none⟩]

/-- Embeds `dragAndDrop`: resolve source then target centers (either
failure throws before any dispatch), then press at the source, move to the
target, release at the target. -/
def dragAndDropExec (srcMs : List Rect) (srcIdx : Option LocIndex)
    (srcRm : Option Rect) (tgtMs : List Rect) (tgtIdx : Option LocIndex)
    (tgtRm : Option Rect) : Except AutoError (List InputCmd) :=
  match getElementCenter srcMs srcIdx srcRm with
  | .error e => .error e
  | .ok f =>
    match getElementCenter tgtMs tgtIdx tgtRm with
    | .error e => .error e
    | .ok t =>
      .ok [.mouse ⟨"mousePressed".toList, f.1, f.2, some .left, some 1⟩,
           .mouse ⟨"mouseMoved".toList, t.1, t.2, none, none⟩,
           .mouse ⟨"mouseReleased".toList, t.1, t.2, some .left, some 1⟩]

/-- Embeds `type`: evaluate the find expression (no re-measure here); a
tagged failure throws; on success click the center to focus, then dispatch
one key-down/key-up pair per character of the text, in order. -/
def typeExec (ms : List Rect) (idx : Option LocIndex) (text : List Char) :
    Except AutoError (List InputCmd) :=
  match findElement ms (normalizeIndex idx) with
  | .notFound c => .error (.locNotFound c)
  | .strict c => .error (.locStrict c)
  | .outOfRange c i => .error (.locOutOfRange c i)
  | .found r =>
    .ok (clickPair .left 1 (centerOf r) ++
      text.foldr (fun ch acc =>
        .key ⟨"keyDown".toList, some [ch], none⟩ ::
        .key ⟨"keyUp".toList, some [ch], none⟩ :: acc) [])

/-- Result of the check/uncheck get-action script
(`buildCheckUncheckGetActionInnerBlock`): a find error, a not-checkable
type mismatch, `ok` when the checked state already matches the request, or
the element center when a real click is needed. -/
inductive CheckAction
  | err (e : AutoError)
  | ok
  | clickAt (x y : ℚ)
deriving DecidableEq, Repr

/-- Embeds `buildCheckUncheckGetActionInnerBlock` applied to the matched
elements: find (strict or indexed), require an `INPUT` of type checkbox or
radio, then compare the current checked state with the requested one. -/
def checkActionScript (ms : List Elem) (idx : Option LocIndex)
    (want : Bool) : CheckAction :=
  match findElement ms idx with
  | .notFound c => .err (.locNotFound c)
  | .strict c => .err (.locStrict c)
  | .outOfRange c i => .err (.locOutOfRange c i)
  | .found el =>
    if el.tagName ≠ "INPUT".toList then .err .notCheckable
    else
      let t := lowerChars el.typeAttr
      if t ≠ "checkbox".toList ∧ t ≠ "radio".toList then .err .notCheckable
      else if el.checked ≠ want then
        .clickAt (el.rect.x + el.rect.w / 2) (el.rect.y + el.rect.h / 2)
      else .ok

/-- Embeds `check` (`want = true`) and `uncheck` (`want = false`): run the
get-action script with the 0-to-first normalized index; a tagged error
throws; `ok` dispatches nothing; a center dispatches exactly one real
left-click pair at that point. -/
def checkExec (ms : List Elem) (idx : Option LocIndex) (want : Bool) :
    Except AutoError (List InputCmd) :=
  match checkActionScript ms (normalizeIndex idx) want with
  | .err e => .error e
  | .ok => .ok []
  | .clickAt x y => .ok (clickPair .left 1 (x, y))

/-- Input-dispatch commands actually issued by an executor run: none when
the verb threw. -/
def sentCmds : Except AutoError (List InputCmd) → List InputCmd
  | .error _ => []
  | .ok l => l

/-! ## Select mutation scripts -/

/-- Option specification accepted by `select`: visible label, value, or
positional index. -/
inductive SelOpt
  | byLabel (l : List Char)
  | byValue (v : List Char)
  | byIndex (i : Int)
deriving DecidableEq, Repr

/-- First index (if any) at which the predicate holds. -/
def firstMatchIdx {α : Type} (p : α → Bool) : List α → Option Nat
  | [] => none
  | a :: l => if p a then some 0 else (firstMatchIdx p l).map (· + 1)

/-- Label comparison of the select scripts: trimmed visible text equals
the requested label. -/
def labelPred (l : List Char) (o : OptState) : Bool := jsTrim o.label == l

/-- Value comparison of the select scripts. -/
def valuePred (v : List Char) (o : OptState) : Bool := o.value == v

/-- Marks the first option whose trimmed visible label equals the request
(the breaking loop of the multi-select script). -/
def markFirstLabel (l : List Char) : List OptState → List OptState
  | [] => []
  | o :: rest =>
    if labelPred l o then { o with selected := true } :: rest
    else o :: markFirstLabel l rest

/-- Marks the first option whose value equals the request. -/
def markFirstValue (v : List Char) : List OptState → List OptState
  | [] => []
  | o :: rest =>
    if valuePred v o then { o with selected := true } :: rest
    else o :: markFirstValue v rest

/-- Marks the option at the given position when it exists
(`opts[i] !== undefined` in the script; negative or out-of-range indices
are no-ops). -/
def markIndexAux (i : Int) : List OptState → List OptState
  | [] => []
  | o :: rest =>
    if i = 0 then { o with selected := true } :: rest
    else o :: markIndexAux (i - 1) rest

/-- Applies one option spec of the multi-select script. -/
def applySpec : SelOpt → List OptState → List OptState
  | .byLabel l, opts => markFirstLabel l opts
  | .byValue v, opts => markFirstValue v opts
  | .byIndex i, opts => markIndexAux i opts

/-- Clears every option's selected flag (the first loop of the
multi-select script). -/
def clearAll (opts : List OptState) : List OptState :=
  opts.map (fun o => { o with selected := false })

/-- State of a `<select>` control across the mutation script: its options
plus the number of change events dispatched so far. -/
structure SelectState where
  opts : List OptState
  changeCount : Nat
deriving DecidableEq, Repr

/-- Embeds the mutation body of `buildSelectOptionMultiInnerBlock` run
against a resolved `<select>`: clear every option, apply every requested
spec in order, then dispatch exactly one change event. -/
def multiSelectScript (specs : List SelOpt) (s : SelectState) :
    SelectState :=
  { opts := specs.foldl (fun acc sp => applySpec sp acc) (clearAll s.opts),
    changeCount := s.changeCount + 1 }

/-- Embeds the `select` verb for an array of option specs: run the find
with the 0-to-first normalized index; a tagged failure throws the locator
error, a non-`<select>` target throws the not-select error; success
dispatches no input events. -/
def selectExecMulti (ms : List Elem) (idx : Option LocIndex)
    (specs : List SelOpt) : Except AutoError (List InputCmd) :=
  match findElement ms (normalizeIndex idx) with
  | .notFound c => .error (.locNotFound c)
  | .strict c => .error (.locStrict c)
  | .outOfRange c i => .error (.locOutOfRange c i)
  | .found el =>
    if el.tagName = "SELECT".toList then .ok [] else .error .notSelect

/-! ## Read-only state predicates
(`buildElementStateExpression` and the four state checks) -/

/-- Visibility check of `buildIsVisibleExpression`: zero-size box, or
display none, visibility hidden, or zero opacity make the element not
visible. -/
def visiblePred (el : Elem) : Bool :=
  if el.rect.w = 0 ∧ el.rect.h = 0 then false
  else if el.style.display = "none".toList ∨
      el.style.visibility = "hidden".toList ∨ el.style.opacity = 0 then
    false
  else true

/-- Disabled check of `buildIsDisabledExpression`. -/
def disabledPred (el : Elem) : Bool := el.disabled

/-- Editability check of `buildIsEditableExpression`: inputs and textareas
must be neither disabled nor read-only; otherwise any content-editable
element. -/
def editablePred (el : Elem) : Bool :=
  if el.tagName = "INPUT".toList ∨ el.tagName = "TEXTAREA".toList then
    !el.disabled && !el.readOnly
  else if el.contentEditable then true
  else false

/-- Selected check of `buildIsSelectedExpression`: checkbox/radio checked
flag, option selected flag, or a select with a non-negative selected
index. -/
def selectedPred (el : Elem) : Bool :=
  if el.tagName = "INPUT".toList ∧
      (lowerChars el.typeAttr = "checkbox".toList ∨
       lowerChars el.typeAttr = "radio".toList) then el.checked
  else if el.tagName = "OPTION".toList then el.optionSelected
  else if el.tagName = "SELECT".toList then decide (0 ≤ el.selectedIndex)
  else false

/-- Embeds the state-predicate verbs (`isVisible`, `isDisabled`,
`isEditable`, `isSelected`): run the shared find (strict or indexed after
0-to-first normalization); a tagged failure throws the locator error;
otherwise return the predicate value on the found element. -/
def stateExec (ms : List Elem) (idx : Option LocIndex)
    (pred : Elem → Bool) : Except AutoError Bool :=
  match findElement ms (normalizeIndex idx) with
  | .notFound c => .error (.locNotFound c)
  | .strict c => .error (.locStrict c)
  | .outOfRange c i => .error (.locOutOfRange c i)
  | .found el => .ok (pred el)

/-! ## Claim theorems about the executor -/

/-- Helper: a failed find outcome makes `getElementCenter` throw the
corresponding locator error. -/
theorem getElementCenter_error (ms : List Rect) (idx : Option LocIndex)
    (rm : Option Rect) (e : AutoError)
    (h : locErrOf (findElement ms (normalizeIndex idx)) = some e) :
    getElementCenter ms idx rm = .error e := by
  unfold getElementCenter
  cases hfe : findElement ms (normalizeIndex idx) <;>
    rw [hfe] at h <;> simp [locErrOf] at h <;> simp [h]

/-- Helper: a failed find outcome makes the check/uncheck get-action
script return the corresponding tagged error. -/
theorem checkActionScript_error (ms : List Elem) (idx : Option LocIndex)
    (want : Bool) (e : AutoError)
    (h : locErrOf (findElement ms idx) = some e) :
    checkActionScript ms idx want = .err e := by
  unfold checkActionScript
  cases hfe : findElement ms idx <;>
    rw [hfe] at h <;> simp [locErrOf] at h <;> simp [h]

/-- Sample computed style used by concrete witnesses. -/
def style0 : Style := ⟨"block".toList, "visible".toList, 1⟩

/-- Sample checked checkbox element. -/
def checkedBox : Elem :=
  ⟨"INPUT".toList, "checkbox".toList, true, false, false, false, false,
   -1, rect0, style0, []⟩

/-- Sample unchecked checkbox element. -/
def uncheckedBox : Elem :=
  ⟨"INPUT".toList, "checkbox".toList, false, false, false, false, false,
   -1, rect0, style0, []⟩

/-- Sample non-checkable element (a div). -/
def divElem : Elem :=
  ⟨"DIV".toList, [], false, false, false, false, false, -1, rect0,
   style0, []⟩

/-- C7: check and uncheck are idempotent: when the resolved element is an
`INPUT` of type checkbox or radio whose checked state already equals the
requested one, the verb returns ok and dispatches zero pointer events;
when the state differs it dispatches exactly one left press/release pair
at the element's center; a target that is not a checkbox/radio input
yields the not-checkable error with no pointer dispatch. -/
theorem check_uncheck_idempotent (ms : List Elem) (idx : Option LocIndex)
    (el : Elem) (want : Bool)
    (hfound : findElement ms (normalizeIndex idx) = .found el) :
    (el.tagName = "INPUT".toList →
      (lowerChars el.typeAttr = "checkbox".toList ∨
       lowerChars el.typeAttr = "radio".toList) →
      ((el.checked = want → checkExec ms idx want = .ok [] ∧
          sentCmds (checkExec ms idx want) = []) ∧
       (el.checked ≠ want → checkExec ms idx want =
          .ok (clickPair .left 1 (centerOf el.rect))))) ∧
    ((el.tagName ≠ "INPUT".toList ∨
      (lowerChars el.typeAttr ≠ "checkbox".toList ∧
       lowerChars el.typeAttr ≠ "radio".toList)) →
      checkExec ms idx want = .error .notCheckable ∧
      sentCmds (checkExec ms idx want) = []) := by
  constructor
  · intro htag htype
    have h1 : ¬(el.tagName ≠ "INPUT".toList) := by simp [htag]
    have h2 : ¬(lowerChars el.typeAttr ≠ "checkbox".toList ∧
        lowerChars el.typeAttr ≠ "radio".toList) := by tauto
    constructor
    · intro heq
      have hact : checkActionScript ms (normalizeIndex idx) want = .ok := by
        simp only [checkActionScript, hfound]
        rw [if_neg h1, if_neg h2, if_neg (by simp [heq])]
      constructor <;> simp [checkExec, hact, sentCmds]
    · intro hne
      have hact : checkActionScript ms (normalizeIndex idx) want =
          .clickAt (el.rect.x + el.rect.w / 2)
            (el.rect.y + el.rect.h / 2) := by
        simp only [checkActionScript, hfound]
        rw [if_neg h1, if_neg h2, if_pos hne]
      simp [checkExec, hact, clickPair, centerOf]
  · intro hbad
    have hact : checkActionScript ms (normalizeIndex idx) want =
        .err .notCheckable := by
      simp only [checkActionScript, hfound]
      by_cases htag : el.tagName = "INPUT".toList
      · have hmis : lowerChars el.typeAttr ≠ "checkbox".toList ∧
            lowerChars el.typeAttr ≠ "radio".toList := by tauto
        rw [if_neg (by simp [htag]), if_pos hmis]
      · rw [if_pos htag]
    constructor <;> simp [checkExec, hact, sentCmds]

/-- Witness for C7 at concrete inputs: an already-checked checkbox, an
unchecked checkbox, and a div. -/
theorem check_uncheck_idempotent_witness :
    (checkExec [checkedBox] none true = .ok [] ∧
      sentCmds (checkExec [checkedBox] none true) = []) ∧
    checkExec [uncheckedBox] none true =
      .ok (clickPair .left 1 (centerOf uncheckedBox.rect)) ∧
    (checkExec [divElem] none true = .error .notCheckable ∧
      sentCmds (checkExec [divElem] none true) = []) :=
  ⟨((check_uncheck_idempotent [checkedBox] none checkedBox true
      (by decide)).1 (by decide) (by decide)).1 (by decide),
   ((check_uncheck_idempotent [uncheckedBox] none uncheckedBox true
      (by decide)).1 (by decide) (by decide)).2 (by decide),
   (check_uncheck_idempotent [divElem] none divElem true
      (by decide)).2 (by decide)⟩

/-- C8: every action verb (click, doubleClick, rightClick, hover,
dragAndDrop with either side unresolved, type, check, uncheck via `want`,
select) throws the corresponding locator error when element resolution
returns a tagged failure, and no pointer or keyboard command is
dispatched. -/
theorem no_dispatch_on_unresolved
    (msR msR2 : List Rect) (idxR idxR2 : Option LocIndex)
    (rm rm2 : Option Rect) (msE : List Elem) (idxE : Option LocIndex)
    (text : List Char) (specs : List SelOpt) (want : Bool) (e : AutoError)
    (hR : locErrOf (findElement msR (normalizeIndex idxR)) = some e)
    (hE : locErrOf (findElement msE (normalizeIndex idxE)) = some e) :
    (clickExec msR idxR rm = .error e ∧
      sentCmds (clickExec msR idxR rm) = []) ∧
    (doubleClickExec msR idxR rm = .error e ∧
      sentCmds (doubleClickExec msR idxR rm) = []) ∧
    (rightClickExec msR idxR rm = .error e ∧
      sentCmds (rightClickExec msR idxR rm) = []) ∧
    (hoverExec msR idxR rm = .error e ∧
      sentCmds (hoverExec msR idxR rm) = []) ∧
    (dragAndDropExec msR idxR rm msR2 idxR2 rm2 = .error e ∧
      sentCmds (dragAndDropExec msR idxR rm msR2 idxR2 rm2) = []) ∧
    ((∃ e2, dragAndDropExec msR2 idxR2 rm2 msR idxR rm = .error e2) ∧
      sentCmds (dragAndDropExec msR2 idxR2 rm2 msR idxR rm) = []) ∧
    (typeExec msR idxR text = .error e ∧
      sentCmds (typeExec msR idxR text) = []) ∧
    (checkExec msE idxE want = .error e ∧
      sentCmds (checkExec msE idxE want) = []) ∧
    (selectExecMulti msE idxE specs = .error e ∧
      sentCmds (selectExecMulti msE idxE specs) = []) := by
  have hc := getElementCenter_error msR idxR rm e hR
  refine ⟨?_, ?_, ?_, ?_, ?_, ?_, ?_, ?_, ?_⟩
  · constructor <;> simp [clickExec, hc, sentCmds]
  · constructor <;> simp [doubleClickExec, hc, sentCmds]
  · constructor <;> simp [rightClickExec, hc, sentCmds]
  · constructor <;> simp [hoverExec, hc, sentCmds]
  · constructor <;> simp [dragAndDropExec, hc, sentCmds]
  · have ht := getElementCenter_error msR idxR rm e hR
    cases hsrc : getElementCenter msR2 idxR2 rm2 with
    | error e2 =>
      constructor
      · exact ⟨e2, by simp [dragAndDropExec, hsrc]⟩
      · simp [dragAndDropExec, hsrc, sentCmds]
    | ok p =>
      constructor
      · exact ⟨e, by simp [dragAndDropExec, hsrc, ht]⟩
      · simp [dragAndDropExec, hsrc, ht, sentCmds]
  · unfold typeExec
    cases hfe : findElement msR (normalizeIndex idxR) <;>
      rw [hfe] at hR <;> simp [locErrOf] at hR <;>
      simp [hR, sentCmds]
  · have ha := checkActionScript_error msE (normalizeIndex idxE) want e hE
    constructor <;> simp [checkExec, ha, sentCmds]
  · unfold selectExecMulti
    cases hfe : findElement msE (normalizeIndex idxE) <;>
      rw [hfe] at hE <;> simp [locErrOf] at hE <;>
      simp [hE, sentCmds]

/-- Witness for C8 at concrete inputs: empty match lists, so every verb
throws the not-found locator error with no commands dispatched. -/
theorem no_dispatch_on_unresolved_witness :
    (clickExec [] none none = .error (.locNotFound 0) ∧
      sentCmds (clickExec [] none none) = []) ∧
    (doubleClickExec [] none none = .error (.locNotFound 0) ∧
      sentCmds (doubleClickExec [] none none) = []) ∧
    (rightClickExec [] none none = .error (.locNotFound 0) ∧
      sentCmds (rightClickExec [] none none) = []) ∧
    (hoverExec [] none none = .error (.locNotFound 0) ∧
      sentCmds (hoverExec [] none none) = []) ∧
    (dragAndDropExec [] none none [rect0] none none =
        .error (.locNotFound 0) ∧
      sentCmds (dragAndDropExec [] none none [rect0] none none) = []) ∧
    ((∃ e2, dragAndDropExec [rect0] none none [] none none = .error e2) ∧
      sentCmds (dragAndDropExec [rect0] none none [] none none) = []) ∧
    (typeExec [] none "hi".toList = .error (.locNotFound 0) ∧
      sentCmds (typeExec [] none "hi".toList) = []) ∧
    (checkExec [] none true = .error (.locNotFound 0) ∧
      sentCmds (checkExec [] none true) = []) ∧
    (selectExecMulti [] none [] = .error (.locNotFound 0) ∧
      sentCmds (selectExecMulti [] none []) = []) :=
  no_dispatch_on_unresolved [] [rect0] none none none none [] none
    "hi".toList [] true (.locNotFound 0) (by decide) (by decide)

/-- C9: the read-only state predicates treat a selector matching zero
elements as an error identical to the action verbs: they throw the
not-found locator error rather than returning false, and false is
returned only when an element was found and the predicate evaluates to
false on it. -/
theorem state_predicate_strictness (idx : Option LocIndex)
    (ms : List Elem) (b : Bool) :
    stateExec [] idx visiblePred = .error (.locNotFound 0) ∧
    stateExec [] idx disabledPred = .error (.locNotFound 0) ∧
    stateExec [] idx editablePred = .error (.locNotFound 0) ∧
    stateExec [] idx selectedPred = .error (.locNotFound 0) ∧
    (∀ p : Elem → Bool, stateExec ms idx p = .ok b →
      ∃ el, findElement ms (normalizeIndex idx) = .found el ∧ p el = b) := by
  have hempty : findElement ([] : List Elem) (normalizeIndex idx) =
      .notFound 0 := by
    cases h : normalizeIndex idx with
    | none => rfl
    | some li => rfl
  refine ⟨?_, ?_, ?_, ?_, ?_⟩
  · simp [stateExec, hempty]
  · simp [stateExec, hempty]
  · simp [stateExec, hempty]
  · simp [stateExec, hempty]
  · intro p hok
    unfold stateExec at hok
    cases hfe : findElement ms (normalizeIndex idx) <;> rw [hfe] at hok <;>
      simp at hok
    exact ⟨_, rfl, hok⟩

/-- Witness for C9 at concrete inputs: the hidden-element predicate value
is returned for a found element, and the empty match list throws. -/
theorem state_predicate_strictness_witness :
    stateExec [] none visiblePred = .error (.locNotFound 0) ∧
    (∃ el, findElement [divElem] (normalizeIndex none) = .found el ∧
      disabledPred el = false) :=
  ⟨(state_predicate_strictness none [divElem] false).1,
   (state_predicate_strictness none [divElem] false).2.2.2.2
     disabledPred rfl⟩

/-- C10: a numeric locator index of 0 is normalized to first before
expression building, so `nth 0` and `first` produce identical behavior for
every embedded verb and predicate, including the strictness bypass: with
two or more matches, `nth 0` succeeds with the first element instead of
raising the strict/ambiguous error. -/
theorem nth_zero_equals_first :
    normalizeIndex (some (.nth 0)) = some .first ∧
    (∀ (ms : List Rect) (rm : Option Rect),
      clickExec ms (some (.nth 0)) rm = clickExec ms (some .first) rm ∧
      doubleClickExec ms (some (.nth 0)) rm =
        doubleClickExec ms (some .first) rm ∧
      rightClickExec ms (some (.nth 0)) rm =
        rightClickExec ms (some .first) rm ∧
      hoverExec ms (some (.nth 0)) rm = hoverExec ms (some .first) rm) ∧
    (∀ (ms ms2 : List Rect) (idx2 : Option LocIndex) (rm rm2 : Option Rect),
      dragAndDropExec ms (some (.nth 0)) rm ms2 idx2 rm2 =
        dragAndDropExec ms (some .first) rm ms2 idx2 rm2 ∧
      dragAndDropExec ms2 idx2 rm2 ms (some (.nth 0)) rm =
        dragAndDropExec ms2 idx2 rm2 ms (some .first) rm) ∧
    (∀ (ms : List Rect) (text : List Char),
      typeExec ms (some (.nth 0)) text = typeExec ms (some .first) text) ∧
    (∀ (ms : List Elem) (want : Bool),
      checkExec ms (some (.nth 0)) want = checkExec ms (some .first) want) ∧
    (∀ (ms : List Elem) (specs : List SelOpt),
      selectExecMulti ms (some (.nth 0)) specs =
        selectExecMulti ms (some .first) specs) ∧
    (∀ (ms : List Elem) (p : Elem → Bool),
      stateExec ms (some (.nth 0)) p = stateExec ms (some .first) p) ∧
    (∀ (r : Rect) (rest : List Rect),
      findElement (r :: rest) (normalizeIndex (some (.nth 0))) =
        .found r) := by
  have hn : normalizeIndex (some (.nth 0)) = some .first := by
    simp [normalizeIndex]
  have hfirstn : normalizeIndex (some .first) = some .first := rfl
  have hgec : ∀ (ms : List Rect) (rm : Option Rect),
      getElementCenter ms (some (.nth 0)) rm =
        getElementCenter ms (some .first) rm := by
    intro ms rm
    unfold getElementCenter
    rw [hn, hfirstn]
  refine ⟨hn, ?_, ?_, ?_, ?_, ?_, ?_, ?_⟩
  · intro ms rm
    refine ⟨?_, ?_, ?_, ?_⟩ <;>
      simp only [clickExec, doubleClickExec, rightClickExec, hoverExec,
        hgec]
  · intro ms ms2 idx2 rm rm2
    constructor <;> simp only [dragAndDropExec, hgec]
  · intro ms text
    unfold typeExec
    rw [hn, hfirstn]
  · intro ms want
    unfold checkExec checkActionScript
    rw [hn, hfirstn]
  · intro ms specs
    unfold selectExecMulti
    rw [hn, hfirstn]
  · intro ms p
    unfold stateExec
    rw [hn, hfirstn]
  · intro r rest
    rw [hn]
    show (if h : _ then _ else _) = _
    rw [dif_pos]
    · rfl
    · exact ⟨by simp [effectiveIdx], by simp [effectiveIdx]⟩

/-! ## URL matching (`waitForURL`)

The source tests a string pattern containing a double star by replacing
every double star with dot-star and testing the resulting JS regular
expression against the URL; a plain string by substring containment; and a
caller-supplied RegExp by its own test.  We model the regex fragment these
patterns use (literal characters, dot, single-atom star, backslash
escapes, a trailing end anchor) with a small matcher whose `test` searches
from every position, as JS `RegExp.prototype.test` does. -/

/-- Regex atom: a literal character or the dot wildcard. -/
inductive RxAtom
  | lit (c : Char)
  | anyChar
deriving DecidableEq, Repr

/-- Lexed regex token: an atom, a starred atom, or the end anchor. -/
inductive RxTok
  | atom (a : RxAtom)
  | starTok (a : RxAtom)
  | endAnchor
deriving DecidableEq, Repr

/-- Lexes a regex source string into tokens (dollars as end anchors,
backslash escapes as literals, dot as wildcard, a trailing star binding to
the preceding atom). -/
def rxLex : List Char → List RxTok
  | [] => []
  | '$' :: rest => .endAnchor :: rxLex rest
  | '\\' :: c :: '*' :: rest => .starTok (.lit c) :: rxLex rest
  | '\\' :: c :: rest => .atom (.lit c) :: rxLex rest
  | '.' :: '*' :: rest => .starTok .anyChar :: rxLex rest
  | '.' :: rest => .atom .anyChar :: rxLex rest
  | c :: '*' :: rest => .starTok (.lit c) :: rxLex rest
  | c :: rest => .atom (.lit c) :: rxLex rest

/-- Atom acceptance. -/
def atomMatch : RxAtom → Char → Bool
  | .anyChar, _ => true
  | .lit c, x => c == x

/-- Matches zero or more repetitions of an atom followed by the
continuation (the backtracking search for a starred atom). -/
def starMatch (a : RxAtom) (cont : List Char → Bool) : List Char → Bool
  | [] => cont []
  | c :: s => cont (c :: s) || (atomMatch a c && starMatch a cont s)

/-- Matches a token list against an input prefix (an unanchored pattern
may leave a suffix of the input unconsumed). -/
def rxMatchToks : List RxTok → List Char → Bool
  | [] => fun _ => true
  | .endAnchor :: ps => fun s => s.isEmpty && rxMatchToks ps s
  | .atom a :: ps => fun s =>
    match s with
    | [] => false
    | c :: s2 => atomMatch a c && rxMatchToks ps s2
  | .starTok a :: ps => starMatch a (rxMatchToks ps)

/-- JS `RegExp.prototype.test`: the pattern matches starting at some
position of the input. -/
def rxTest (pat : List Char) (s : List Char) : Bool :=
  (List.range (s.length + 1)).any (fun k => rxMatchToks (rxLex pat) (s.drop k))

/-- JS `String.prototype.includes` on character lists. -/
def listIncludes (hay needle : List Char) : Bool :=
  (List.range (hay.length + 1)).any
    (fun k => startsWithChars needle (hay.drop k))

/-- Whether the pattern string contains a double star
(`p.includes` of star-star in the source). -/
def hasDoubleStar : List Char → Bool
  | '*' :: '*' :: _ => true
  | _ :: rest => hasDoubleStar rest
  | [] => false

/-- The global replacement of every double star by dot-star performed
before compiling the glob into a regular expression. -/
def replaceDoubleStar : List Char → List Char
  | '*' :: '*' :: rest => '.' :: '*' :: replaceDoubleStar rest
  | c :: rest => c :: replaceDoubleStar rest
  | [] => []

/-- A `waitForURL` pattern: a string, or a precompiled regular expression
(carried by its source text and interpreted by the same matcher). -/
inductive URLPat
  | strPat (p : List Char)
  | regexPat (r : List Char)
deriving DecidableEq, Repr

/-- Embeds the `match` closure of `waitForURL`: a string containing a
double star is compiled to a regular expression by the double-star to
dot-star replacement and tested; any other string is a substring test; a
RegExp pattern is tested directly. -/
def waitForURLMatch : URLPat → List Char → Bool
  | .strPat p, u =>
    if hasDoubleStar p then rxTest (replaceDoubleStar p) u
    else listIncludes u p
  | .regexPat r, u => rxTest r u

/-- C5: the `waitForURL` match predicate is determined solely by the
caller's pattern type: a string containing a double star matches iff the
regular expression obtained by replacing every double star with dot-star
tests true on the URL; a string without matches iff it occurs as a
substring; a RegExp matches iff its own test succeeds; in particular the
glob star-star-slash-login matches the login URL, the plain slash-login
substring matches it, and an end-anchored RegExp fails on the URL with a
trailing 2. -/
theorem waitForURL_match_cases (p : List Char) (u : List Char)
    (r : List Char) :
    (hasDoubleStar p = true →
      waitForURLMatch (.strPat p) u = rxTest (replaceDoubleStar p) u) ∧
    (hasDoubleStar p = false →
      waitForURLMatch (.strPat p) u = listIncludes u p) ∧
    waitForURLMatch (.regexPat r) u = rxTest r u ∧
    waitForURLMatch (.strPat "**/login".toList)
      "https://x/app/login".toList = true ∧
    waitForURLMatch (.strPat "/login".toList)
      "https://x/app/login".toList = true ∧
    waitForURLMatch (.regexPat "/login$".toList)
      "https://x/app/login2".toList = false := by
  refine ⟨?_, ?_, rfl, by decide, by decide, by decide⟩
  · intro h
    simp [waitForURLMatch, h]
  · intro h
    simp [waitForURLMatch, h]

/-- Witness for C5 at concrete patterns: a glob, a plain substring, and a
regex source. -/
theorem waitForURL_match_cases_witness :
    waitForURLMatch (.strPat "**/app".toList) "https://x/app".toList =
      rxTest (replaceDoubleStar "**/app".toList) "https://x/app".toList ∧
    waitForURLMatch (.strPat "/app".toList) "https://x/app".toList =
      listIncludes "https://x/app".toList "/app".toList :=
  ⟨((waitForURL_match_cases "**/app".toList "https://x/app".toList
      []).1) (by decide),
   ((waitForURL_match_cases "/app".toList "https://x/app".toList
      []).2.1) (by decide)⟩

/-! ## Multi-select mutation: the final selection is exactly the
requested set (C6) -/

/-- Default option used to read a selection flag at an arbitrary
position (out-of-range positions read as unselected). -/
def optD : OptState := ⟨[], [], false⟩

/-- Selected flag of the option at a position. -/
def selAt (opts : List OptState) (n : Nat) : Bool :=
  (opts.getD n optD).selected

/-- Which position a single option spec identifies: the first
trimmed-label match, the first value match, or the position itself when in
range. -/
def identifiesAt (opts : List OptState) (n : Nat) : SelOpt → Bool
  | .byLabel l => firstMatchIdx (labelPred l) opts == some n
  | .byValue v => firstMatchIdx (valuePred v) opts == some n
  | .byIndex i => decide ((n : Int) = i) && decide (n < opts.length)

/-- Whether any requested spec identifies the position. -/
def specsIdentify (specs : List SelOpt) (opts : List OptState) (n : Nat) :
    Bool :=
  specs.any (fun sp => identifiesAt opts n sp)

/-- Label and value content of an option list, which the mutation script
never changes. -/
def shape (opts : List OptState) : List (List Char × List Char) :=
  opts.map (fun o => (o.label, o.value))

/-- Helper: marking by label preserves labels and values. -/
theorem shape_markFirstLabel (l : List Char) :
    ∀ opts, shape (markFirstLabel l opts) = shape opts := by
  intro opts
  induction opts with
  | nil => rfl
  | cons o rest ih =>
    unfold markFirstLabel
    split <;> simp [shape] at ih ⊢ <;> exact ih

/-- Helper: marking by value preserves labels and values. -/
theorem shape_markFirstValue (v : List Char) :
    ∀ opts, shape (markFirstValue v opts) = shape opts := by
  intro opts
  induction opts with
  | nil => rfl
  | cons o rest ih =>
    unfold markFirstValue
    split <;> simp [shape] at ih ⊢ <;> exact ih

/-- Helper: marking by position preserves labels and values. -/
theorem shape_markIndexAux :
    ∀ (opts : List OptState) (i : Int),
      shape (markIndexAux i opts) = shape opts := by
  intro opts
  induction opts with
  | nil => intro i; rfl
  | cons o rest ih =>
    intro i
    unfold markIndexAux
    split
    · simp [shape]
    · simp only [shape, List.map_cons, List.cons.injEq, true_and]
      simpa [shape] using ih (i - 1)

/-- Helper: applying any spec preserves labels and values. -/
theorem shape_applySpec (sp : SelOpt) (opts : List OptState) :
    shape (applySpec sp opts) = shape opts := by
  cases sp with
  | byLabel l => exact shape_markFirstLabel l opts
  | byValue v => exact shape_markFirstValue v opts
  | byIndex i => exact shape_markIndexAux opts i

/-- Helper: clearing preserves labels and values. -/
theorem shape_clearAll (opts : List OptState) :
    shape (clearAll opts) = shape opts := by
  induction opts with
  | nil => rfl
  | cons o rest ih =>
    simp [shape, clearAll] at ih ⊢
    try exact ih

/-- Helper: equal shapes mean equal lengths. -/
theorem length_of_shape_eq {a b : List OptState} (h : shape a = shape b) :
    a.length = b.length := by
  have := congrArg List.length h
  simpa [shape] using this

/-- Helper: on equally shaped lists, a predicate reading only label and
value finds its first match at the same position. -/
theorem firstMatchIdx_shape (f : OptState → Bool)
    (hf : ∀ o o2 : OptState, o.label = o2.label → o.value = o2.value →
      f o = f o2) :
    ∀ (a b : List OptState), shape a = shape b →
      firstMatchIdx f a = firstMatchIdx f b := by
  intro a
  induction a with
  | nil =>
    intro b h
    have : b = [] := by
      cases b with
      | nil => rfl
      | cons o2 b2 => simp [shape] at h
    subst this; rfl
  | cons o a2 ih =>
    intro b h
    cases b with
    | nil => simp [shape] at h
    | cons o2 b2 =>
      simp only [shape, List.map_cons, List.cons.injEq, Prod.mk.injEq]
        at h
      obtain ⟨⟨hl, hv⟩, hrest⟩ := h
      have h1 := hf o o2 hl hv
      have h2 := ih b2 hrest
      simp only [firstMatchIdx, h1, h2]

/-- Helper: out-of-list reads are unselected. -/
theorem selAt_nil (n : Nat) : selAt [] n = false := by
  simp [selAt, optD]

/-- Helper: reading position zero of a cons. -/
theorem selAt_cons_zero (o : OptState) (xs : List OptState) :
    selAt (o :: xs) 0 = o.selected := by
  simp [selAt]

/-- Helper: reading a successor position of a cons. -/
theorem selAt_cons_succ (o : OptState) (xs : List OptState) (m : Nat) :
    selAt (o :: xs) (m + 1) = selAt xs m := by
  simp [selAt]

/-- Helper: a shifted first-match index never equals zero. -/
theorem optMapSucc_beq_zero (x : Option Nat) :
    ((x.map (· + 1)) == some 0) = false := by
  cases x <;> simp

/-- Helper: a shifted first-match index equals a successor exactly when
the unshifted one equals its predecessor. -/
theorem optMapSucc_beq_succ (x : Option Nat) (m : Nat) :
    ((x.map (· + 1)) == some (m + 1)) = (x == some m) := by
  cases x <;> simp

/-- Helper: selection after marking the first label match. -/
theorem selAt_markFirstLabel (l : List Char) :
    ∀ (opts : List OptState) (n : Nat),
      selAt (markFirstLabel l opts) n =
        ((firstMatchIdx (labelPred l) opts == some n) || selAt opts n) := by
  intro opts
  induction opts with
  | nil => intro n; simp [markFirstLabel, firstMatchIdx, selAt_nil]
  | cons o rest ih =>
    intro n
    by_cases hp : labelPred l o
    · have hm : markFirstLabel l (o :: rest) =
          { o with selected := true } :: rest := by
        unfold markFirstLabel; rw [if_pos hp]
      have hf : firstMatchIdx (labelPred l) (o :: rest) = some 0 := by
        unfold firstMatchIdx; rw [if_pos hp]
      rw [hm, hf]
      cases n with
      | zero => rw [selAt_cons_zero, selAt_cons_zero]; simp
      | succ m => rw [selAt_cons_succ, selAt_cons_succ]; simp
    · have hm : markFirstLabel l (o :: rest) =
          o :: markFirstLabel l rest := by
        rw [show markFirstLabel l (o :: rest) =
          if labelPred l o then { o with selected := true } :: rest
          else o :: markFirstLabel l rest from rfl, if_neg hp]
      have hf : firstMatchIdx (labelPred l) (o :: rest) =
          (firstMatchIdx (labelPred l) rest).map (· + 1) := by
        rw [show firstMatchIdx (labelPred l) (o :: rest) =
          if labelPred l o then some 0
          else (firstMatchIdx (labelPred l) rest).map (· + 1) from rfl,
          if_neg hp]
      rw [hm, hf]
      cases n with
      | zero =>
        rw [selAt_cons_zero, selAt_cons_zero, optMapSucc_beq_zero]
        simp
      | succ m =>
        rw [selAt_cons_succ, selAt_cons_succ, ih m, optMapSucc_beq_succ]

/-- Helper: selection after marking the first value match. -/
theorem selAt_markFirstValue (v : List Char) :
    ∀ (opts : List OptState) (n : Nat),
      selAt (markFirstValue v opts) n =
        ((firstMatchIdx (valuePred v) opts == some n) || selAt opts n) := by
  intro opts
  induction opts with
  | nil => intro n; simp [markFirstValue, firstMatchIdx, selAt_nil]
  | cons o rest ih =>
    intro n
    by_cases hp : valuePred v o
    · have hm : markFirstValue v (o :: rest) =
          { o with selected := true } :: rest := by
        unfold markFirstValue; rw [if_pos hp]
      have hf : firstMatchIdx (valuePred v) (o :: rest) = some 0 := by
        unfold firstMatchIdx; rw [if_pos hp]
      rw [hm, hf]
      cases n with
      | zero => rw [selAt_cons_zero, selAt_cons_zero]; simp
      | succ m => rw [selAt_cons_succ, selAt_cons_succ]; simp
    · have hm : markFirstValue v (o :: rest) =
          o :: markFirstValue v rest := by
        rw [show markFirstValue v (o :: rest) =
          if valuePred v o then { o with selected := true } :: rest
          else o :: markFirstValue v rest from rfl, if_neg hp]
      have hf : firstMatchIdx (valuePred v) (o :: rest) =
          (firstMatchIdx (valuePred v) rest).map (· + 1) := by
        rw [show firstMatchIdx (valuePred v) (o :: rest) =
          if valuePred v o then some 0
          else (firstMatchIdx (valuePred v) rest).map (· + 1) from rfl,
          if_neg hp]
      rw [hm, hf]
      cases n with
      | zero =>
        rw [selAt_cons_zero, selAt_cons_zero, optMapSucc_beq_zero]
        simp
      | succ m =>
        rw [selAt_cons_succ, selAt_cons_succ, ih m, optMapSucc_beq_succ]

/-- Helper: selection after marking by position. -/
theorem selAt_markIndexAux :
    ∀ (opts : List OptState) (i : Int) (n : Nat),
      selAt (markIndexAux i opts) n =
        ((decide ((n : Int) = i) && decide (n < opts.length)) ||
          selAt opts n) := by
  intro opts
  induction opts with
  | nil =>
    intro i n
    simp [markIndexAux, selAt_nil]
  | cons o rest ih =>
    intro i n
    by_cases hi : i = 0
    · have hm : markIndexAux i (o :: rest) =
          { o with selected := true } :: rest := by
        simp only [markIndexAux]; rw [if_pos hi]
      rw [hm]
      cases n with
      | zero =>
        rw [selAt_cons_zero]
        simp [hi]
      | succ m =>
        rw [selAt_cons_succ, selAt_cons_succ]
        have hne : ¬((m : Int) + 1 = i) := by omega
        simp [hne]
    · have hm : markIndexAux i (o :: rest) =
          o :: markIndexAux (i - 1) rest := by
        simp only [markIndexAux]; rw [if_neg hi]
      rw [hm]
      cases n with
      | zero =>
        rw [selAt_cons_zero, selAt_cons_zero]
        have hne : ¬((0 : Int) = i) := by omega
        simp [hne]
      | succ m =>
        rw [selAt_cons_succ, selAt_cons_succ, ih (i - 1) m]
        have e1 : (decide ((m : Int) = i - 1)) =
            (decide (((m + 1 : Nat) : Int) = i)) := by
          simp only [decide_eq_decide]
          push_cast
          omega
        have e2 : (decide (m < rest.length)) =
            (decide (m + 1 < (o :: rest).length)) := by
          simp only [decide_eq_decide, List.length_cons]
          omega
        rw [e1, e2]

/-- Helper: the cleared list has every position unselected. -/
theorem selAt_clearAll (opts : List OptState) (n : Nat) :
    selAt (clearAll opts) n = false := by
  induction opts generalizing n with
  | nil => simp [clearAll, selAt_nil]
  | cons o rest ih =>
    cases n with
    | zero => simp [clearAll, selAt_cons_zero]
    | succ m =>
      show selAt ({ o with selected := false } :: clearAll rest) (m + 1) =
        false
      rw [selAt_cons_succ]
      exact ih m

/-- Helper: applying one spec sets exactly the position it identifies in
the original option list (shapes agreeing), keeping previously set
positions. -/
theorem selAt_applySpec (sp : SelOpt) (opts0 : List OptState)
    (cur : List OptState) (h : shape cur = shape opts0) (n : Nat) :
    selAt (applySpec sp cur) n =
      (identifiesAt opts0 n sp || selAt cur n) := by
  cases sp with
  | byLabel l =>
    have hidx : firstMatchIdx (labelPred l) cur =
        firstMatchIdx (labelPred l) opts0 := by
      apply firstMatchIdx_shape
      · intro o o2 hl hv
        simp [labelPred, hl]
      · exact h
    simp only [applySpec, identifiesAt, selAt_markFirstLabel, hidx]
  | byValue v =>
    have hidx : firstMatchIdx (valuePred v) cur =
        firstMatchIdx (valuePred v) opts0 := by
      apply firstMatchIdx_shape
      · intro o o2 hl hv
        simp [valuePred, hv]
      · exact h
    simp only [applySpec, identifiesAt, selAt_markFirstValue, hidx]
  | byIndex i =>
    have hlen := length_of_shape_eq h
    simp only [applySpec, identifiesAt, selAt_markIndexAux, hlen]

/-- Helper: folding the spec list over a shape-agreeing current list
preserves the shape and sets exactly the identified positions in
addition to the already-set ones. -/
theorem foldl_applySpec (specs : List SelOpt) (opts0 : List OptState) :
    ∀ cur : List OptState, shape cur = shape opts0 →
      shape (specs.foldl (fun acc sp => applySpec sp acc) cur) =
        shape opts0 ∧
      ∀ n : Nat,
        selAt (specs.foldl (fun acc sp => applySpec sp acc) cur) n =
          (specsIdentify specs opts0 n || selAt cur n) := by
  induction specs with
  | nil =>
    intro cur h
    exact ⟨h, by intro n; simp [specsIdentify]⟩
  | cons sp specs ih =>
    intro cur h
    have hstep : shape (applySpec sp cur) = shape opts0 := by
      rw [shape_applySpec]; exact h
    obtain ⟨hsh, hsel⟩ := ih (applySpec sp cur) hstep
    refine ⟨by simpa using hsh, ?_⟩
    intro n
    have hrec := hsel n
    simp only [List.foldl_cons] at hrec ⊢
    rw [hrec, selAt_applySpec sp opts0 cur h n]
    have hcons : specsIdentify (sp :: specs) opts0 n =
        (identifiesAt opts0 n sp || specsIdentify specs opts0 n) := by
      simp [specsIdentify]
    rw [hcons, Bool.or_assoc, Bool.or_left_comm]

/-- C6: the multi-select mutation script first deselects every option,
then marks exactly the options identified by the requested specs (first
trimmed-label match, first value match, or in-range position), and
dispatches exactly one change event: the final selection at every
position equals whether some requested spec identifies it, independent of
the prior selection; the concrete two-of-three scenario replaces a
selected third option with exactly the first two. -/
theorem multi_select_replaces_selection (specs : List SelOpt)
    (s : SelectState) (n : Nat) :
    (multiSelectScript specs s).changeCount = s.changeCount + 1 ∧
    (multiSelectScript specs s).opts.length = s.opts.length ∧
    selAt (multiSelectScript specs s).opts n =
      specsIdentify specs s.opts n ∧
    multiSelectScript [.byValue "a".toList, .byValue "b".toList]
        ⟨[⟨"A".toList, "a".toList, false⟩, ⟨"B".toList, "b".toList, false⟩,
          ⟨"C".toList, "c".toList, true⟩], 0⟩ =
      ⟨[⟨"A".toList, "a".toList, true⟩, ⟨"B".toList, "b".toList, true⟩,
        ⟨"C".toList, "c".toList, false⟩], 1⟩ := by
  have hclear : shape (clearAll s.opts) = shape s.opts :=
    shape_clearAll s.opts
  obtain ⟨hsh, hsel⟩ := foldl_applySpec specs s.opts (clearAll s.opts)
    hclear
  refine ⟨rfl, ?_, ?_, by decide⟩
  · exact length_of_shape_eq hsh
  · have := hsel n
    rw [selAt_clearAll] at this
    simpa [multiSelectScript] using this

/-! ## Selector resolution: canonicalization and idempotence (C3, C4) -/

/-- Helper: the head of a dropWhile result fails the predicate. -/
theorem head_dropWhile_false (p : Char → Bool) :
    ∀ (l : List Char) (c : Char),
      (l.dropWhile p).head? = some c → p c = false := by
  intro l
  induction l with
  | nil => intro c h; simp [List.dropWhile] at h
  | cons a l ih =>
    intro c h
    rw [List.dropWhile_cons] at h
    by_cases hp : p a
    · rw [if_pos hp] at h
      exact ih c h
    · rw [if_neg hp] at h
      simp only [List.head?_cons, Option.some.injEq] at h
      subst h
      simpa using hp

/-- Helper: dropWhile keeps a list whose head fails the predicate. -/
theorem dropWhile_eq_self_of_head (p : Char → Bool) (l : List Char)
    (h : ∀ c, l.head? = some c → p c = false) : l.dropWhile p = l := by
  cases l with
  | nil => rfl
  | cons a l =>
    rw [List.dropWhile_cons, if_neg]
    simp [h a rfl]

/-- Helper: a nonempty dropWhile result keeps the last element. -/
theorem getLast?_dropWhile (p : Char → Bool) :
    ∀ l : List Char,
      l.dropWhile p = [] ∨
      (l.dropWhile p ≠ [] ∧ (l.dropWhile p).getLast? = l.getLast?) := by
  intro l
  induction l with
  | nil => left; rfl
  | cons a l ih =>
    rw [List.dropWhile_cons]
    by_cases hp : p a
    · rw [if_pos hp]
      rcases ih with h | ⟨hne, heq⟩
      · left; exact h
      · right
        refine ⟨hne, heq.trans ?_⟩
        cases l with
        | nil => exact absurd rfl hne
        | cons b l2 => rw [List.getLast?_cons_cons]
    · rw [if_neg hp]
      right
      exact ⟨List.cons_ne_nil a l, rfl⟩

/-- Helper: trimming a string whose first and last characters are not
whitespace is the identity. -/
theorem jsTrim_eq_self (s : List Char)
    (h1 : ∀ c, s.head? = some c → jsWhitespace c = false)
    (h2 : ∀ c, s.getLast? = some c → jsWhitespace c = false) :
    jsTrim s = s := by
  unfold jsTrim
  rw [dropWhile_eq_self_of_head jsWhitespace s h1]
  rw [dropWhile_eq_self_of_head jsWhitespace s.reverse
    (by intro c hc; rw [List.head?_reverse] at hc; exact h2 c hc)]
  exact List.reverse_reverse s

/-- Helper: trimming a string with no whitespace at all is the
identity. -/
theorem jsTrim_eq_self_of_all (s : List Char)
    (h : ∀ c ∈ s, jsWhitespace c = false) : jsTrim s = s := by
  apply jsTrim_eq_self
  · intro c hc
    cases s with
    | nil => simp at hc
    | cons a l =>
      simp only [List.head?_cons, Option.some.injEq] at hc
      cases hc
      exact h _ (List.mem_cons_self _ _)
  · intro c hc
    have hmem : c ∈ s.getLast? := by rw [hc]; rfl
    obtain ⟨hne, hEq⟩ := List.mem_getLast?_eq_getLast hmem
    exact hEq ▸ h _ (List.getLast_mem hne)

/-- Helper: trimming is idempotent. -/
theorem jsTrim_idem (s : List Char) : jsTrim (jsTrim s) = jsTrim s := by
  by_cases hnil : jsTrim s = []
  · rw [hnil]; rfl
  · apply jsTrim_eq_self
    · intro c hc
      unfold jsTrim at hc
      rw [List.head?_reverse] at hc
      rcases getLast?_dropWhile jsWhitespace
          (s.dropWhile jsWhitespace).reverse with h | ⟨hne, heq⟩
      · rw [h] at hc; simp at hc
      · rw [heq, List.getLast?_reverse] at hc
        exact head_dropWhile_false jsWhitespace s c hc
    · intro c hc
      unfold jsTrim at hc
      rw [List.getLast?_reverse] at hc
      exact head_dropWhile_false jsWhitespace
        (s.dropWhile jsWhitespace).reverse c hc

/-- Helper: word characters are never whitespace. -/
theorem isWordChar_not_ws (c : Char) (h : isWordChar c = true) :
    jsWhitespace c = false := by
  rw [Bool.eq_false_iff]
  intro hw
  simp only [isWordChar, Bool.or_eq_true, Bool.and_eq_true,
    decide_eq_true_eq, beq_iff_eq] at h
  simp only [jsWhitespace, Bool.or_eq_true, Bool.and_eq_true,
    decide_eq_true_eq, beq_iff_eq] at hw
  omega

/-- Helper: takeWhile and dropWhile split a word prefix followed by a
non-word character exactly at that character. -/
theorem takeWhile_word_append (a t : List Char)
    (ha : ∀ c ∈ a, isWordChar c = true) (d : Char)
    (hd : isWordChar d = false) :
    (a ++ d :: t).takeWhile isWordChar = a ∧
    (a ++ d :: t).dropWhile isWordChar = d :: t := by
  induction a with
  | nil => simp [List.takeWhile_cons, List.dropWhile_cons, hd]
  | cons x a2 ih =>
    have hx : isWordChar x = true := ha x (List.mem_cons_self x a2)
    have ih2 := ih (fun c hc => ha c (List.mem_cons_of_mem x hc))
    constructor
    · rw [List.cons_append, List.takeWhile_cons, if_pos hx, ih2.1]
    · rw [List.cons_append, List.dropWhile_cons, if_pos hx, ih2.2]

/-- Helper: the shorthand parse succeeds on exactly the attr-equals-quote
shape, returning the attribute and the value. -/
theorem parseAttrShorthand_attr (a v : List Char) (ha : a ≠ [])
    (haw : ∀ c ∈ a, isWordChar c = true)
    (hv : ∀ c ∈ v, isQuote c = false) :
    parseAttrShorthand (a ++ '=' :: ('"' :: (v ++ ['"']))) =
      some (a, v) := by
  obtain ⟨htake, hdrop⟩ :=
    takeWhile_word_append a ('"' :: (v ++ ['"'])) haw '=' (by decide)
  have hq3 : parseAfterQuote (v ++ ['"']) = some v := by
    unfold parseAfterQuote
    rw [show ((v ++ ['"'] : List Char)).reverse = '"' :: v.reverse by
      simp]
    show (if isQuote '"' && v.reverse.all (fun c => !isQuote c) then
      some v.reverse.reverse else none) = some v
    rw [if_pos]
    · rw [List.reverse_reverse]
    · rw [List.all_reverse]
      simp only [Bool.and_eq_true, List.all_eq_true]
      refine ⟨by decide, ?_⟩
      intro c hc
      simp [hv c hc]
  have hq2 : parseAfterEq ('"' :: (v ++ ['"'])) = some v := by
    unfold parseAfterEq
    rw [List.dropWhile_cons, if_neg (by decide)]
    show (if isQuote '"' then parseAfterQuote (v ++ ['"']) else none) =
      some v
    rw [if_pos (by decide), hq3]
  unfold parseAttrShorthand
  rw [htake, hdrop]
  rw [if_neg (by simp [List.isEmpty_iff, ha])]
  rw [List.dropWhile_cons, if_neg (by decide)]
  show (if ('=' : Char) = '=' then
    (parseAfterEq ('"' :: (v ++ ['"']))).map (fun v => (a, v))
    else none) = some (a, v)
  rw [if_pos rfl, hq2]
  rfl

/-- Helper: the shorthand parse fails when the first character is not a
word character. -/
theorem parseAttrShorthand_none_of_head (s : List Char)
    (h : ∀ c, s.head? = some c → isWordChar c = false) :
    parseAttrShorthand s = none := by
  unfold parseAttrShorthand
  rw [if_pos]
  cases s with
  | nil => rfl
  | cons c rest =>
    rw [List.takeWhile_cons, if_neg (by simp [h c rfl])]
    rfl

/-- Helper: tokens produced by the whitespace split are nonempty and
whitespace-free. -/
theorem splitWsAux_tokens :
    ∀ (s cur : List Char), (∀ c ∈ cur, jsWhitespace c = false) →
      ∀ t ∈ splitWsAux cur s, t ≠ [] ∧ ∀ c ∈ t, jsWhitespace c = false := by
  intro s
  induction s with
  | nil =>
    intro cur hcur t ht
    unfold splitWsAux at ht
    by_cases hc : cur.isEmpty
    · rw [if_pos hc] at ht; simp at ht
    · rw [if_neg hc] at ht
      simp only [List.mem_singleton] at ht
      subst ht
      refine ⟨by simpa [List.isEmpty_iff] using hc, ?_⟩
      intro c hcm
      exact hcur c (by simpa using hcm)
  | cons x rest ih =>
    intro cur hcur t ht
    unfold splitWsAux at ht
    by_cases hx : jsWhitespace x
    · rw [if_pos hx] at ht
      by_cases hc : cur.isEmpty
      · rw [if_pos hc] at ht
        exact ih [] (by simp) t ht
      · rw [if_neg hc] at ht
        rcases List.mem_cons.mp ht with h | h
        · subst h
          refine ⟨by simpa [List.isEmpty_iff] using hc, ?_⟩
          intro c hcm
          exact hcur c (by simpa using hcm)
        · exact ih [] (by simp) t h
    · rw [if_neg hx] at ht
      refine ih (x :: cur) ?_ t ht
      intro c hc2
      rcases List.mem_cons.mp hc2 with h | h
      · subst h; simpa using hx
      · exact hcur c h

/-- Helper: escaping adds only backslashes, so a whitespace-free token
escapes to a whitespace-free string. -/
theorem escapeSelectorClass_not_ws (t : List Char)
    (h : ∀ c ∈ t, jsWhitespace c = false) :
    ∀ c ∈ escapeSelectorClass t, jsWhitespace c = false := by
  induction t with
  | nil => intro c hc; simp [escapeSelectorClass] at hc
  | cons x rest ih =>
    intro c hc
    have hx := h x (List.mem_cons_self x rest)
    have hr := fun c2 hc2 => h c2 (List.mem_cons_of_mem x hc2)
    unfold escapeSelectorClass at hc
    by_cases hp : isEscapedPunct x
    · rw [if_pos hp] at hc
      rcases List.mem_cons.mp hc with h1 | h1
      · subst h1; decide
      · rcases List.mem_cons.mp h1 with h2 | h2
        · subst h2; exact hx
        · exact ih hr c h2
    · rw [if_neg hp] at hc
      rcases List.mem_cons.mp hc with h1 | h1
      · subst h1; exact hx
      · exact ih hr c h1

/-- Helper: escaping a nonempty token yields a nonempty string. -/
theorem escapeSelectorClass_ne_nil (t : List Char) (h : t ≠ []) :
    escapeSelectorClass t ≠ [] := by
  cases t with
  | nil => exact absurd rfl h
  | cons x rest =>
    unfold escapeSelectorClass
    by_cases hp : isEscapedPunct x
    · rw [if_pos hp]; exact List.cons_ne_nil _ _
    · rw [if_neg hp]; exact List.cons_ne_nil _ _

/-- Helper: an escaped token never starts with a slash (a literal slash
is escaped, so a backslash comes first). -/
theorem escapeSelectorClass_head_ne_slash (t : List Char) :
    ∀ c, (escapeSelectorClass t).head? = some c → c ≠ '/' := by
  cases t with
  | nil => intro c hc; simp [escapeSelectorClass] at hc
  | cons x rest =>
    intro c hc
    unfold escapeSelectorClass at hc
    by_cases hp : isEscapedPunct x
    · rw [if_pos hp] at hc
      simp only [List.head?_cons, Option.some.injEq] at hc
      subst hc; decide
    · rw [if_neg hp] at hc
      simp only [List.head?_cons, Option.some.injEq] at hc
      subst hc
      intro h
      subst h
      exact absurd (by decide : isEscapedPunct '/' = true) (by simpa using hp)

/-- Helper: every character of the dot-class concatenation is a dot, a
backslash, or a token character — never whitespace. -/
theorem classConcat_not_ws (ts : List (List Char))
    (hts : ∀ t ∈ ts, t ≠ [] ∧ ∀ c ∈ t, jsWhitespace c = false) :
    ∀ c ∈ (ts.map (fun t => '.' :: escapeSelectorClass t)).foldr
      (· ++ ·) [], jsWhitespace c = false := by
  induction ts with
  | nil => intro c hc; simp at hc
  | cons t ts2 ih =>
    intro c hc
    simp only [List.map_cons, List.foldr_cons] at hc
    rcases List.mem_append.mp hc with h1 | h1
    · rcases List.mem_cons.mp h1 with h2 | h2
      · subst h2; decide
      · exact escapeSelectorClass_not_ws t
          (hts t (List.mem_cons_self t ts2)).2 c h2
    · exact ih (fun t2 ht2 => hts t2 (List.mem_cons_of_mem t ht2)) c h1

/-- Helper: the dot-class concatenation is empty, or starts with a dot
not followed by a slash. -/
theorem classConcat_shape (ts : List (List Char))
    (hts : ∀ t ∈ ts, t ≠ [] ∧ ∀ c ∈ t, jsWhitespace c = false) :
    (ts.map (fun t => '.' :: escapeSelectorClass t)).foldr (· ++ ·) []
      = [] ∨
    ∃ rest,
      (ts.map (fun t => '.' :: escapeSelectorClass t)).foldr (· ++ ·) []
        = '.' :: rest ∧ ∀ c, rest.head? = some c → c ≠ '/' := by
  cases ts with
  | nil => left; rfl
  | cons t ts2 =>
    right
    refine ⟨escapeSelectorClass t ++
      (ts2.map (fun t => '.' :: escapeSelectorClass t)).foldr (· ++ ·) [],
      by simp, ?_⟩
    intro c hc
    have hne := escapeSelectorClass_ne_nil t
      (hts t (List.mem_cons_self t ts2)).1
    cases hesc : escapeSelectorClass t with
    | nil => exact absurd hesc hne
    | cons e erest =>
      rw [hesc, List.cons_append, List.head?_cons] at hc
      have := escapeSelectorClass_head_ne_slash t e (by rw [hesc]; rfl)
      simp only [Option.some.injEq] at hc
      subst hc
      exact this

/-- Helper: the path-based branch of the resolver. -/
theorem resolveChars_of_xpath (s : List Char)
    (h : isXPath (jsTrim s) = true) : resolveChars s = jsTrim s := by
  unfold resolveChars
  rw [if_pos h]

/-- Helper: the passthrough branch of the resolver. -/
theorem resolveChars_of_plain (s : List Char)
    (h1 : isXPath (jsTrim s) = false)
    (h2 : parseAttrShorthand (jsTrim s) = none) :
    resolveChars s = jsTrim s := by
  unfold resolveChars
  rw [if_neg (by simp [h1]), h2]

/-- Helper: the shorthand branch of the resolver, with the four rewrite
cases still to be selected. -/
theorem resolveChars_of_parse (s : List Char) (a v : List Char)
    (h1 : isXPath (jsTrim s) = false)
    (h2 : parseAttrShorthand (jsTrim s) = some (a, v)) :
    resolveChars s =
      (if lowerChars a = "name".toList then
        '[' :: "name".toList ++ '=' :: '"' :: v ++ ['"', ']']
      else if lowerChars a = "id".toList then
        '[' :: "id".toList ++ '=' :: '"' :: v ++ ['"', ']']
      else if lowerChars a = "class".toList then
        ((splitWsTokens (jsTrim v)).map
          (fun c => '.' :: escapeSelectorClass c)).foldr (· ++ ·) []
      else
        '[' :: a ++ '=' :: '"' :: v ++ ['"', ']']) := by
  unfold resolveChars
  rw [if_neg (by simp [h1]), h2]

/-- Helper: a prefix test fails when the first characters differ. -/
theorem startsWithChars_cons_ne (p c : Char) (ps cs : List Char)
    (h : (p == c) = false) :
    startsWithChars (p :: ps) (c :: cs) = false := by
  show ((p == c) && startsWithChars ps cs) = false
  rw [h, Bool.false_and]

/-- Helper: a canonical bracket-attribute output is a fixed point of the
resolver (not path-based, not shorthand, and trim-stable). -/
theorem resolveChars_bracket_fixpoint (m v : List Char) :
    resolveChars ('[' :: m ++ '=' :: '"' :: v ++ ['"', ']']) =
      '[' :: m ++ '=' :: '"' :: v ++ ['"', ']'] := by
  have hh : ('[' :: m ++ '=' :: '"' :: v ++ ['"', ']']).head? =
      some '[' := by simp
  have hlast : ('[' :: m ++ '=' :: '"' :: v ++ ['"', ']']).getLast? =
      some ']' := by
    rw [show ('[' :: m ++ '=' :: '"' :: v ++ ['"', ']']) =
      ('[' :: m ++ '=' :: '"' :: v ++ ['"']) ++ [']'] from by simp,
      List.getLast?_concat]
  have htrim : jsTrim ('[' :: m ++ '=' :: '"' :: v ++ ['"', ']']) =
      '[' :: m ++ '=' :: '"' :: v ++ ['"', ']'] :=
    jsTrim_eq_self _
      (fun c hc => by rw [hh] at hc; cases hc; decide)
      (fun c hc => by rw [hlast] at hc; cases hc; decide)
  have hcons : ('[' :: m ++ '=' :: '"' :: v ++ ['"', ']']) =
      '[' :: (m ++ ('=' :: '"' :: v ++ ['"', ']'])) := by simp
  have hxp : isXPath ('[' :: m ++ '=' :: '"' :: v ++ ['"', ']']) =
      false := by
    unfold isXPath
    rw [htrim, hcons]
    rw [startsWithChars_cons_ne _ _ _ _ (by decide),
      startsWithChars_cons_ne _ _ _ _ (by decide),
      startsWithChars_cons_ne _ _ _ _ (by decide)]
    rfl
  have hparse :
      parseAttrShorthand ('[' :: m ++ '=' :: '"' :: v ++ ['"', ']']) =
        none := by
    apply parseAttrShorthand_none_of_head
    intro c hc
    rw [hh] at hc
    cases hc
    decide
  have := resolveChars_of_plain ('[' :: m ++ '=' :: '"' :: v ++ ['"', ']'])
    (by rw [htrim]; exact hxp) (by rw [htrim]; exact hparse)
  rw [this, htrim]

/-- Helper: a dot-class output (all characters non-whitespace, empty or a
dot not followed by a slash) is a fixed point of the resolver. -/
theorem resolveChars_dotlist_fixpoint (out : List Char)
    (hall : ∀ c ∈ out, jsWhitespace c = false)
    (hshape : out = [] ∨ ∃ rest, out = '.' :: rest ∧
      ∀ c, rest.head? = some c → c ≠ '/') :
    resolveChars out = out := by
  rcases hshape with rfl | ⟨rest, rfl, hr⟩
  · decide
  · have htrim : jsTrim ('.' :: rest) = '.' :: rest :=
      jsTrim_eq_self_of_all _ hall
    have hxp : isXPath ('.' :: rest) = false := by
      unfold isXPath
      rw [htrim]
      have e3 : startsWithChars ['.', '/'] ('.' :: rest) = false := by
        show (('.' == '.') && startsWithChars ['/'] rest) = false
        rw [show (('.' : Char) == '.') = true from by decide,
          Bool.true_and]
        cases rest with
        | nil => rfl
        | cons c rest2 =>
          refine startsWithChars_cons_ne '/' c [] rest2 ?_
          have hc := hr c rfl
          exact beq_eq_false_iff_ne.mpr (Ne.symm hc)
      rw [startsWithChars_cons_ne _ _ _ _ (by decide),
        startsWithChars_cons_ne _ _ _ _ (by decide), e3]
      rfl
    have hparse : parseAttrShorthand ('.' :: rest) = none := by
      apply parseAttrShorthand_none_of_head
      intro c hc
      simp only [List.head?_cons, Option.some.injEq] at hc
      cases hc
      decide
    have := resolveChars_of_plain ('.' :: rest)
      (by rw [htrim]; exact hxp) (by rw [htrim]; exact hparse)
    rw [this, htrim]

/-- Helper: resolving is idempotent — every output of the resolver is a
fixed point. -/
theorem resolveChars_idem (s : List Char) :
    resolveChars (resolveChars s) = resolveChars s := by
  by_cases hx : isXPath (jsTrim s) = true
  · rw [resolveChars_of_xpath s hx]
    have hxt : isXPath (jsTrim (jsTrim s)) = true := by
      rw [jsTrim_idem]; exact hx
    rw [resolveChars_of_xpath (jsTrim s) hxt, jsTrim_idem]
  · have hx' : isXPath (jsTrim s) = false := by
      simpa using hx
    cases hp : parseAttrShorthand (jsTrim s) with
    | none =>
      rw [resolveChars_of_plain s hx' hp]
      have hxt : isXPath (jsTrim (jsTrim s)) = false := by
        rw [jsTrim_idem]; exact hx'
      have hpt : parseAttrShorthand (jsTrim (jsTrim s)) = none := by
        rw [jsTrim_idem]; exact hp
      rw [resolveChars_of_plain (jsTrim s) hxt hpt, jsTrim_idem]
    | some av =>
      obtain ⟨a, v⟩ := av
      rw [resolveChars_of_parse s a v hx' hp]
      by_cases hname : lowerChars a = "name".toList
      · rw [if_pos hname]
        exact resolveChars_bracket_fixpoint "name".toList v
      · rw [if_neg hname]
        by_cases hid : lowerChars a = "id".toList
        · rw [if_pos hid]
          exact resolveChars_bracket_fixpoint "id".toList v
        · rw [if_neg hid]
          by_cases hcl : lowerChars a = "class".toList
          · rw [if_pos hcl]
            have hts := fun t ht =>
              splitWsAux_tokens (jsTrim v) [] (by simp) t ht
            exact resolveChars_dotlist_fixpoint _
              (classConcat_not_ws _ hts) (classConcat_shape _ hts)
          · rw [if_neg hcl]
            exact resolveChars_bracket_fixpoint a v

/-- Helper: the resolver rewrites every generic attribute shorthand into
its bracketed structural form. -/
theorem resolveChars_attr_general (a v : List Char) (ha : a ≠ [])
    (haw : ∀ c ∈ a, isWordChar c = true)
    (hv : ∀ c ∈ v, isQuote c = false)
    (h1 : lowerChars a ≠ "name".toList)
    (h2 : lowerChars a ≠ "id".toList)
    (h3 : lowerChars a ≠ "class".toList) :
    resolveChars (a ++ '=' :: ('"' :: (v ++ ['"']))) =
      '[' :: a ++ '=' :: '"' :: v ++ ['"', ']'] := by
  obtain ⟨x, a2, rfl⟩ : ∃ x a2, a = x :: a2 := by
    cases a with
    | nil => exact absurd rfl ha
    | cons x a2 => exact ⟨x, a2, rfl⟩
  have hx : isWordChar x = true := haw x (List.mem_cons_self _ _)
  have hh : ((x :: a2) ++ '=' :: ('"' :: (v ++ ['"']))).head? =
      some x := by simp
  have hlast : ((x :: a2) ++ '=' :: ('"' :: (v ++ ['"']))).getLast? =
      some '"' := by
    rw [show ((x :: a2) ++ '=' :: ('"' :: (v ++ ['"']))) =
      ((x :: a2) ++ '=' :: ('"' :: v)) ++ ['"'] from by simp,
      List.getLast?_concat]
  have htrim : jsTrim ((x :: a2) ++ '=' :: ('"' :: (v ++ ['"']))) =
      (x :: a2) ++ '=' :: ('"' :: (v ++ ['"'])) :=
    jsTrim_eq_self _
      (fun c hc => by rw [hh] at hc; cases hc; exact isWordChar_not_ws x hx)
      (fun c hc => by rw [hlast] at hc; cases hc; decide)
  have hxne : x ≠ '/' ∧ x ≠ '(' ∧ x ≠ '.' := by
    refine ⟨?_, ?_, ?_⟩ <;> intro h <;> rw [h] at hx <;>
      exact absurd hx (by decide)
  have hxp : isXPath ((x :: a2) ++ '=' :: ('"' :: (v ++ ['"']))) =
      false := by
    unfold isXPath
    rw [htrim, List.cons_append]
    rw [startsWithChars_cons_ne _ _ _ _
        (beq_eq_false_iff_ne.mpr (Ne.symm hxne.1)),
      startsWithChars_cons_ne _ _ _ _
        (beq_eq_false_iff_ne.mpr (Ne.symm hxne.2.1)),
      startsWithChars_cons_ne _ _ _ _
        (beq_eq_false_iff_ne.mpr (Ne.symm hxne.2.2))]
    rfl
  have hp := parseAttrShorthand_attr (x :: a2) v ha haw hv
  rw [resolveChars_of_parse _ (x :: a2) v
    (by rw [htrim]; exact hxp) (by rw [htrim]; exact hp)]
  rw [if_neg h1, if_neg h2, if_neg h3]

/-- C3: the resolver canonicalizes shorthand as a pure string rewrite —
the name, id and class shorthands rewrite to their structural forms (one
escaped dot-class per whitespace-separated token for class), any other
attribute shorthand becomes its bracketed form, and resolving is
idempotent on every string. -/
theorem resolve_shorthand_canonical :
    resolveChars ("name=\"x\"".toList) = "[name=\"x\"]".toList ∧
    resolveChars ("id=\"x\"".toList) = "[id=\"x\"]".toList ∧
    resolveChars ("class=\"a b\"".toList) = ".a.b".toList ∧
    (∀ a v : List Char, a ≠ [] →
      (∀ c ∈ a, isWordChar c = true) →
      (∀ c ∈ v, isQuote c = false) →
      lowerChars a ≠ "name".toList →
      lowerChars a ≠ "id".toList →
      lowerChars a ≠ "class".toList →
      resolveChars (a ++ '=' :: ('"' :: (v ++ ['"']))) =
        '[' :: a ++ '=' :: '"' :: v ++ ['"', ']']) ∧
    (∀ s : List Char, resolveChars (resolveChars s) = resolveChars s) := by
  refine ⟨by decide, by decide, by decide, ?_, resolveChars_idem⟩
  intro a v ha haw hv h1 h2 h3
  exact resolveChars_attr_general a v ha haw hv h1 h2 h3

/-- Witness for C3 at concrete inputs: a placeholder attribute shorthand
and idempotence on a concrete selector. -/
theorem resolve_shorthand_canonical_witness :
    resolveChars ("placeholder".toList ++
        '=' :: ('"' :: ("Enter Name".toList ++ ['"']))) =
      '[' :: "placeholder".toList ++
        '=' :: '"' :: "Enter Name".toList ++ ['"', ']'] ∧
    resolveChars (resolveChars ("button".toList)) =
      resolveChars ("button".toList) :=
  ⟨resolve_shorthand_canonical.2.2.2.1 "placeholder".toList
      "Enter Name".toList (by decide) (by decide) (by decide)
      (by decide) (by decide) (by decide),
   resolve_shorthand_canonical.2.2.2.2 ("button".toList)⟩

/-- C4 counterexample: a path-based selector with leading whitespace is
classified path-based but is returned trimmed, not as the input string
itself. -/
theorem xpath_trim_counterexample :
    isXPath (" //a".toList) = true ∧
    resolveChars (" //a".toList) = "//a".toList ∧
    resolveChars (" //a".toList) ≠ " //a".toList := by
  refine ⟨by decide, by decide, by decide⟩

/-- C4 (amended): any selector that, trimmed, starts with a slash, a
dot-slash or an opening parenthesis is classified path-based and the
resolver returns the trimmed input — in particular the input itself
whenever it carries no surrounding whitespace, as in the three cited
example selectors; classification is a pure function of the string. -/
theorem xpath_passthrough (s : List Char) :
    (isXPath s = true → resolveChars s = jsTrim s) ∧
    (isXPath s = true → jsTrim s = s → resolveChars s = s) ∧
    isXPath ("//button[text()=\"Go\"]".toList) = true ∧
    resolveChars ("//button[text()=\"Go\"]".toList) =
      "//button[text()=\"Go\"]".toList ∧
    isXPath ("(//div)[1]".toList) = true ∧
    resolveChars ("(//div)[1]".toList) = "(//div)[1]".toList ∧
    isXPath ("./a".toList) = true ∧
    resolveChars ("./a".toList) = "./a".toList := by
  have hmain : isXPath s = true → resolveChars s = jsTrim s := by
    intro h
    apply resolveChars_of_xpath
    unfold isXPath at h ⊢
    rw [jsTrim_idem]
    exact h
  refine ⟨hmain, ?_, by decide, by decide, by decide, by decide,
    by decide, by decide⟩
  intro h htrim
  rw [hmain h, htrim]

/-- Witness for C4 at a concrete input: the dot-slash selector resolves
to itself. -/
theorem xpath_passthrough_witness :
    resolveChars ("./a".toList) = "./a".toList :=
  (xpath_passthrough ("./a".toList)).2.1 (by decide) (by decide)

end EasyTesting
